import Mathlib

/-!
Verification development for the reminder-scheduling subsystem of a
WhatsApp chat-companion bot.  The definitions below are a shallow
embedding of the JavaScript source (`reminderUtils`-style module): the
reminder record store, the in-memory timer table, the fire-and-recur
controller, creation, and the natural-language time/command parsers.
Instants are modelled as a civil date-time structure together with a
conversion to milliseconds since the Unix epoch; JavaScript `Date`
field arithmetic (`setDate`, `setMonth`, `setHours`, the
`Date(y,m,d,h,mi)` constructor) is modelled by explicit normalisation
of field overflow, which is the behaviour the host exposes for the
non-negative overflows exercised here (backward underflow, e.g. day 0,
is not exercised by any statement in this file).
-/

namespace ReminderBot

/-- Civil date-time (host local clock; the source performs no timezone
conversion).  `month` is 1-based, as printed in ISO strings. -/
structure DateTime where
  year : Int
  month : Nat
  day : Nat
  hour : Nat
  minute : Nat
  second : Nat
deriving DecidableEq, Repr

/-- Gregorian leap-year rule, as implemented by the host `Date`. -/
def isLeapYear (y : Int) : Bool :=
  (y % 4 == 0 && y % 100 != 0) || y % 400 == 0

/-- Number of days in month `m` (1-based) of year `y`. -/
def daysInMonth (y : Int) (m : Nat) : Nat :=
  if m = 1 then 31
  else if m = 2 then (if isLeapYear y then 29 else 28)
  else if m = 3 then 31
  else if m = 4 then 30
  else if m = 5 then 31
  else if m = 6 then 30
  else if m = 7 then 31
  else if m = 8 then 31
  else if m = 9 then 30
  else if m = 10 then 31
  else if m = 11 then 30
  else 31

/-- Year adjustment for the civil-to-epoch-day computation (the civil
year starts in March for this computation). -/
def yAdj (y : Int) (m : Nat) : Int :=
  if m ≤ 2 then y - 1 else y

/-- Days since the Unix epoch of the civil date `y-m-d` (floor-division
variant of the standard civil-from-days algorithm).  The expression is
linear in `d`, so it extends the true epoch-day count linearly when
`d` exceeds the month length, matching the host's `MakeDay` overflow
behaviour. -/
def daysFromCivil (y : Int) (m d : Nat) : Int :=
  yAdj y m / 400 * 146097
    + ((yAdj y m - yAdj y m / 400 * 400) * 365
        + (yAdj y m - yAdj y m / 400 * 400) / 4
        - (yAdj y m - yAdj y m / 400 * 400) / 100
        + (((153 * ((m + 9) % 12) + 2) / 5 : Nat) + (d : Int) - 1))
    - 719468

/-- Milliseconds since the Unix epoch of a civil date-time. -/
def msOfDateTime (dt : DateTime) : Int :=
  daysFromCivil dt.year dt.month dt.day * 86400000
    + ((dt.hour * 3600000 + dt.minute * 60000 + dt.second * 1000 : Nat) : Int)

/-- Normalise a (year, month, day) triple whose day may exceed the
month length, rolling the excess forward into following months exactly
as the host's `Date` field setters do.  `fuel` bounds the recursion;
every use supplies enough fuel to normalise fully. -/
def normDateAux : Nat → Int → Nat → Nat → Int × Nat × Nat
  | 0, y, m, d => (y, m, d)
  | fuel + 1, y, m, d =>
    if d ≤ daysInMonth y m then (y, m, d)
    else if m = 12 then normDateAux fuel (y + 1) 1 (d - daysInMonth y m)
    else normDateAux fuel y (m + 1) (d - daysInMonth y m)

/-- Model of `dt.setDate(dt.getDate() + n)`: add `n` days by field
arithmetic with forward overflow normalisation. -/
def addDaysJS (dt : DateTime) (n : Nat) : DateTime :=
  let r := normDateAux (dt.day + n) dt.year dt.month (dt.day + n)
  { dt with year := r.1, month := r.2.1, day := r.2.2 }

/-- Model of `dt.setMonth(dt.getMonth() + 1)`: increment the month
field (wrapping December into January of the next year) and keep the
day-of-month; a day that exceeds the new month's length overflows
forward into the following month, exactly as the host normalises it
(it does NOT clamp). -/
def addMonthJS (dt : DateTime) : DateTime :=
  let y := if dt.month = 12 then dt.year + 1 else dt.year
  let m := if dt.month = 12 then 1 else dt.month + 1
  let r := normDateAux dt.day y m dt.day
  { dt with year := r.1, month := r.2.1, day := r.2.2 }

/-- Model of `dt.setHours(h, mi, 0, 0)` where `h`/`mi` may overflow
their ranges: the host folds the excess into the date. -/
def setHoursJS (dt : DateTime) (h mi : Nat) : DateTime :=
  let total := h * 60 + mi
  addDaysJS
    { dt with hour := (total % 1440) / 60, minute := total % 60, second := 0 }
    (total / 1440)

example : daysFromCivil 1970 1 1 = 0 := by decide
example : daysFromCivil 2024 3 1 = 19783 := by decide
example : addDaysJS ⟨2024, 2, 28, 9, 0, 0⟩ 1 = ⟨2024, 2, 29, 9, 0, 0⟩ := by decide
example : addDaysJS ⟨2023, 2, 28, 9, 0, 0⟩ 1 = ⟨2023, 3, 1, 9, 0, 0⟩ := by decide
example : addMonthJS ⟨2023, 1, 31, 9, 0, 0⟩ = ⟨2023, 3, 3, 9, 0, 0⟩ := by decide
example : addMonthJS ⟨2024, 12, 15, 9, 0, 0⟩ = ⟨2025, 1, 15, 9, 0, 0⟩ := by decide

/-- A persisted reminder record, as stored in `reminders.json`.  The
source stores `time` and `created` as ISO strings and re-parses them
with `new Date(...)`; here `time` is kept in parsed civil form (the
ISO round trip is the identity on it) and the audit-only `created`
field as epoch milliseconds. -/
structure Reminder where
  text : String
  time : DateTime
  created : Int
  completed : Bool
  recurring : Option String
deriving DecidableEq, Repr

/-- JavaScript truthiness of a nullable string (`null` and `""` are
falsy), used by `if (recurring)` and `if (userData.companionName)`. -/
def truthy : Option String → Bool
  | none => false
  | some s => s ≠ ""

/-- One owner's reminders: reminder id ↦ record (a JSON object,
modelled as an association list in insertion order). -/
abbrev RemList := List (String × Reminder)

/-- The whole persisted collection: owner id ↦ reminder id ↦ record. -/
abbrev Store := List (String × RemList)

/-- The in-memory table of PENDING timers: entries `(ownerId, id,
fire instant in epoch ms)`.  The source keeps a nested `Map` of
`node-schedule` jobs; an entry here corresponds to a job that is
scheduled and not yet cancelled or fired, which is the only state the
claims refer to. -/
abbrev Timers := List (String × String × Int)

/-- `reminders[userId]`, when present. -/
def lookupUser (store : Store) (u : String) : Option RemList :=
  (store.find? (fun p => p.1 == u)).map (·.2)

/-- `reminders[userId][reminderId]`, when present. -/
def lookup2 (store : Store) (u rid : String) : Option Reminder :=
  (lookupUser store u).bind (fun rems => (rems.find? (fun q => q.1 == rid)).map (·.2))

/-- Number of records currently stored for an owner. -/
def ownerLen (store : Store) (u : String) : Nat :=
  ((lookupUser store u).map List.length).getD 0

/-- JavaScript object assignment `o[k] = v`: replace the binding if
the key is present, otherwise append it. -/
def setIn (l : RemList) (k : String) (v : Reminder) : RemList :=
  if l.any (fun q => q.1 == k) then
    l.map (fun q => if q.1 == k then (k, v) else q)
  else l ++ [(k, v)]

/-- `reminders[userId][reminderId] = v` (for a user object already
present; on a store without the user entry this is the identity). -/
def setRem (store : Store) (u rid : String) (v : Reminder) : Store :=
  store.map (fun p => if p.1 == u then (p.1, setIn p.2 rid v) else p)

/-- `delete reminders[userId][reminderId]` followed by
`delete reminders[userId]` when the user object became empty. -/
def eraseRem (store : Store) (u rid : String) : Store :=
  store.filterMap (fun p =>
    if p.1 == u then
      if (p.2.filter (fun q => ¬ q.1 == rid)).isEmpty then none
      else some (p.1, p.2.filter (fun q => ¬ q.1 == rid))
    else some p)

/-- The pending timer for `(u, rid)`, with its fire instant. -/
def timerFor (tms : Timers) (u rid : String) : Option Int :=
  (tms.find? (fun e => e.1 == u && e.2.1 == rid)).map (·.2.2)

/-- `scheduledReminders.get(userId).set(reminderId, job)`: record a
pending job, replacing any previous entry for the same key. -/
def setTimer (tms : Timers) (u rid : String) (t : Int) : Timers :=
  if tms.any (fun e => e.1 == u && e.2.1 == rid) then
    tms.map (fun e => if e.1 == u && e.2.1 == rid then (u, rid, t) else e)
  else tms ++ [(u, rid, t)]

/-- `job.cancel()` (and, in the branches that also do it, the `Map`
entry removal): the job is no longer pending. -/
def cancelTimer (tms : Timers) (u rid : String) : Timers :=
  tms.filter (fun e => ¬ (e.1 == u && e.2.1 == rid))

/-- `scheduleReminder(sock, userId, reminderId, reminder)`: skip when
the reminder time is strictly in the past (`reminderTime < new
Date()`), otherwise register the one-shot job at the reminder's
instant. -/
def scheduleReminder (nowMs : Int) (tms : Timers) (userId reminderId : String)
    (reminder : Reminder) : Timers :=
  if msOfDateTime reminder.time < nowMs then tms
  else setTimer tms userId reminderId (msOfDateTime reminder.time)

/-- The recovery pass of `initializeReminderSystem(sock)`: iterate the
whole persisted collection and, for every record that is not completed
and not strictly in the past (`reminder.completed || new
Date(reminder.time) < new Date()` skips), call `scheduleReminder`.
The scheduler starts empty. -/
def initializeReminderSystem (nowMs : Int) (store : Store) : Timers :=
  store.foldl
    (fun tms p =>
      p.2.foldl
        (fun tms q =>
          if q.2.completed || decide (msOfDateTime q.2.time < nowMs) then tms
          else scheduleReminder nowMs tms p.1 q.1 q.2)
        tms)
    []

/-- The `switch (recurring)` of `markReminderAsCompleted`: the next
occurrence computed from the record's current `time` (`daily`: day+1,
`weekly`: day+7, `monthly`: month+1), or `none` for an unrecognized
pattern (the `default` branch sets no `nextTime`). -/
def nextTimeOf (pat : String) (dt : DateTime) : Option DateTime :=
  if pat = "daily" then some (addDaysJS dt 1)
  else if pat = "weekly" then some (addDaysJS dt 7)
  else if pat = "monthly" then some (addMonthJS dt)
  else none

/-- `markReminderAsCompleted(userId, reminderId, recurring)`: reload
the collection; if the record is missing, return unchanged.  For a
truthy `recurring`, a recognized pattern advances `time` to the next
occurrence and cancels the pending job (nothing is re-armed — the
source notes it lacks the socket and defers rescheduling to the next
restart), while an unrecognized pattern marks the record
`completed = true` (and touches no job).  A falsy `recurring` deletes
the record (cleaning up an emptied user object) and cancels and
removes the job.  The mutated collection is saved. -/
def markReminderAsCompleted (store : Store) (tms : Timers)
    (userId reminderId : String) (recurring : Option String) : Store × Timers :=
  match lookup2 store userId reminderId with
  | none => (store, tms)
  | some reminder =>
    if truthy recurring then
      match nextTimeOf (recurring.getD "") reminder.time with
      | some nt =>
        (setRem store userId reminderId { reminder with time := nt },
          cancelTimer tms userId reminderId)
      | none =>
        (setRem store userId reminderId { reminder with completed := true }, tms)
    else
      (eraseRem store userId reminderId, cancelTimer tms userId reminderId)

/-- The external user-profile record consulted by the notification
step (`getUserData`). -/
structure UserData where
  userName : String
  companionName : Option String
deriving DecidableEq, Repr

/-- The notification text built by `sendReminderNotification` from the
reminder object it was HANDED (the copy captured when the timer was
armed), not from the store. -/
def formatReminderMessage (userData : UserData) (reminder : Reminder) : String :=
  let m0 := "⏰ *REMINDER* ⏰\n\n"
  let m1 :=
    if truthy userData.companionName then
      m0 ++ "Hey " ++ userData.userName ++ ", it's "
        ++ userData.companionName.getD "" ++ " here! 💫\n\n"
    else m0
  let m2 := m1 ++ "You asked me to remind you about:\n*" ++ reminder.text ++ "*"
  if truthy reminder.recurring then
    m2 ++ "\n\nThis is a recurring reminder (" ++ reminder.recurring.getD "" ++ ")."
  else m2

/-- `sendReminderNotification(sock, userId, reminderId, reminder)`.
`userData` is the profile-lookup result and `deliveryOk` whether
`sock.sendMessage` succeeds.  Returns the new (store, timers) state
and the text handed to the notification sink (`none` when the user
was not found and the step was skipped).  All steps share one
`try/catch`: when delivery throws, the error is logged and swallowed
and `markReminderAsCompleted` is never reached, so the state is
unchanged. -/
def sendReminderNotification (userData : Option UserData) (deliveryOk : Bool)
    (store : Store) (tms : Timers) (userId reminderId : String)
    (reminder : Reminder) : (Store × Timers) × Option String :=
  match userData with
  | none => ((store, tms), none)
  | some ud =>
    let msg := formatReminderMessage ud reminder
    if deliveryOk then
      (markReminderAsCompleted store tms userId reminderId reminder.recurring,
        some msg)
    else ((store, tms), some msg)

/-- `createReminder(sock, userId, text, time, recurring)`: load the
collection, initialize the user object if missing, take
`Date.now().toString()` as the reminder id (no freshness check),
insert the record, save, schedule, and return the id. -/
def createReminder (store : Store) (tms : Timers) (nowMs : Int)
    (userId text : String) (time : DateTime) (recurring : Option String) :
    (Store × Timers) × String :=
  let store1 := if store.any (fun p => p.1 == userId) then store
                else store ++ [(userId, [])]
  let reminderId := toString nowMs
  let reminder : Reminder :=
    { text := text, time := time, created := nowMs, completed := false,
      recurring := recurring }
  ((setRem store1 userId reminderId reminder,
      scheduleReminder nowMs tms userId reminderId reminder),
    reminderId)

/-- Whitespace for the regex class `\s` (the characters exercised by
the grammars). -/
def isWsChar (c : Char) : Bool :=
  c == ' ' || c == '\t' || c == '\n' || c == '\r'

/-- The regex class `\d`. -/
def isDigitChar (c : Char) : Bool :=
  '0' ≤ c && c ≤ '9'

/-- Consume the maximal run of whitespace (the greedy `\s+` / `\s*`);
returns how many characters were consumed and the rest. -/
def takeWs : List Char → Nat × List Char
  | [] => (0, [])
  | c :: cs =>
    if isWsChar c then
      let r := takeWs cs
      (r.1 + 1, r.2)
    else (0, c :: cs)

/-- Consume the maximal run of digits (the greedy `\d+`). -/
def takeDigits : List Char → List Char × List Char
  | [] => ([], [])
  | c :: cs =>
    if isDigitChar c then
      let r := takeDigits cs
      (c :: r.1, r.2)
    else ([], c :: cs)

/-- `parseInt` on a digit run. -/
def natOfDigits : List Char → Nat
  | [] => 0
  | ds => ds.foldl (fun n c => n * 10 + (c.toNat - '0'.toNat)) 0

/-- Case-insensitive literal match: if `cs` starts with `pat` (ASCII
case-folded), return the rest. -/
def startsWithCI : List Char → List Char → Option (List Char)
  | [], cs => some cs
  | _ :: _, [] => none
  | p :: ps, c :: cs =>
    if p.toLower == c.toLower then startsWithCI ps cs else none

/-- Ordered alternation of literal words, as in `(minute|minutes|…)`:
the first alternative that is a (case-insensitive) prefix wins; the
canonical lower-case alternative is returned together with the rest,
mirroring `match[i].toLowerCase()`. -/
def firstWordCI (alts : List String) (cs : List Char) : Option (String × List Char) :=
  match alts with
  | [] => none
  | w :: ws =>
    match startsWithCI w.toList cs with
    | some rest => some (w, rest)
    | none => firstWordCI ws cs

/-- Unanchored leftmost search: try the matcher at every suffix, left
to right, as a regex without `^` does. -/
def scanFor {α : Type} (f : List Char → Option α) : List Char → Option α
  | [] => f []
  | c :: cs =>
    match f (c :: cs) with
    | some a => some a
    | none => scanFor f cs

/-- Anchored body of `/in\s+(\d+)\s+(minute|minutes|hour|hours|day|days)/i`:
returns the captured amount and unit. -/
def matchInAt (cs : List Char) : Option (Nat × String) :=
  match startsWithCI "in".toList cs with
  | none => none
  | some r1 =>
    let w1 := takeWs r1
    if w1.1 = 0 then none
    else
      let dg := takeDigits w1.2
      if dg.1.isEmpty then none
      else
        let w2 := takeWs dg.2
        if w2.1 = 0 then none
        else
          match firstWordCI ["minute", "minutes", "hour", "hours", "day", "days"] w2.2 with
          | some (u, _) => some (natOfDigits dg.1, u)
          | none => none

/-- The shared time tail `(\d+)(?::(\d+))?\s*(am|pm)?`: hours, minutes
(0 when the optional group is absent, as `m[2] ? parseInt(m[2]) : 0`),
and the optional meridiem. -/
def parseHM (cs : List Char) : Option (Nat × Nat × Option String) :=
  let dg := takeDigits cs
  if dg.1.isEmpty then none
  else
    let hours := natOfDigits dg.1
    let mr : Nat × List Char :=
      match dg.2 with
      | ':' :: r =>
        let dg2 := takeDigits r
        if dg2.1.isEmpty then (0, dg.2) else (natOfDigits dg2.1, dg2.2)
      | _ => (0, dg.2)
    let w := takeWs mr.2
    match firstWordCI ["am", "pm"] w.2 with
    | some (u, _) => some (hours, mr.1, some u)
    | none => some (hours, mr.1, none)

/-- The AM/PM normalisation shared by the branches: `pm` adds 12
unless the hour is already ≥ 12; `am` turns 12 into 0. -/
def adjustHours (h : Nat) (ap : Option String) : Nat :=
  if ap = some "pm" ∧ h < 12 then h + 12
  else if ap = some "am" ∧ h = 12 then 0
  else h

/-- Anchored body of `/tomorrow\s+at\s+…/i`. -/
def matchTomorrowAt (cs : List Char) : Option (Nat × Nat × Option String) :=
  match startsWithCI "tomorrow".toList cs with
  | none => none
  | some r1 =>
    let w1 := takeWs r1
    if w1.1 = 0 then none
    else
      match startsWithCI "at".toList w1.2 with
      | none => none
      | some r2 =>
        let w2 := takeWs r2
        if w2.1 = 0 then none else parseHM w2.2

/-- Anchored body of `/today\s+at\s+…/i`. -/
def matchTodayAt (cs : List Char) : Option (Nat × Nat × Option String) :=
  match startsWithCI "today".toList cs with
  | none => none
  | some r1 =>
    let w1 := takeWs r1
    if w1.1 = 0 then none
    else
      match startsWithCI "at".toList w1.2 with
      | none => none
      | some r2 =>
        let w2 := takeWs r2
        if w2.1 = 0 then none else parseHM w2.2

/-- `\d{1,2}` with the regex's greedy-then-backtrack choice: the
continuation is tried on the two-digit reading first. -/
def digits12Then {α : Type} (cs : List Char) (k : Nat → List Char → Option α) :
    Option α :=
  match cs with
  | [] => none
  | [a] => if isDigitChar a then k (natOfDigits [a]) [] else none
  | a :: b :: r =>
    if isDigitChar a then
      if isDigitChar b then
        match k (natOfDigits [a, b]) r with
        | some x => some x
        | none => k (natOfDigits [a]) (b :: r)
      else k (natOfDigits [a]) (b :: r)
    else none

/-- Exactly four digits, for the optional `(?:\/(\d{4}))?` year. -/
def takeYear4 (cs : List Char) : Option (Nat × List Char) :=
  match cs with
  | a :: b :: c :: d :: r =>
    if isDigitChar a && isDigitChar b && isDigitChar c && isDigitChar d then
      some (natOfDigits [a, b, c, d], r)
    else none
  | _ => none

/-- Anchored body of
`/(\d{1,2})\/(\d{1,2})(?:\/(\d{4}))?\s+at\s+…/i`: month (1-indexed as
typed), day, optional year, and the time tail. -/
def matchDateAt (cs : List Char) :
    Option (Nat × Nat × Option Nat × (Nat × Nat × Option String)) :=
  digits12Then cs (fun month r1 =>
    match r1 with
    | '/' :: r2 =>
      digits12Then r2 (fun day r3 =>
        let yr : Option Nat × List Char :=
          match r3 with
          | '/' :: r4 =>
            match takeYear4 r4 with
            | some (y, r5) => (some y, r5)
            | none => (none, r3)
          | _ => (none, r3)
        let w1 := takeWs yr.2
        if w1.1 = 0 then none
        else
          match startsWithCI "at".toList w1.2 with
          | none => none
          | some r6 =>
            let w2 := takeWs r6
            if w2.1 = 0 then none
            else
              match parseHM w2.2 with
              | some hma => some (month, day, yr.1, hma)
              | none => none)
    | _ => none)

/-- Model of the host constructor `new Date(year, month0, day, h, mi,
0, 0)` for the non-negative arguments the parser produces: the
0-based month is folded into the year, and day/time overflow is
normalised forward.  (Backward underflow — day 0 or a negative month
index — is outside the inputs exercised in this file.) -/
def mkDateJS (y : Int) (month0 : Int) (day h mi : Nat) : DateTime :=
  let y1 := y + month0 / 12
  let m1 := (month0 % 12).toNat + 1
  let r := normDateAux day y1 m1 day
  setHoursJS
    { year := r.1, month := r.2.1, day := r.2.2, hour := 0, minute := 0,
      second := 0 }
    h mi

/-- Model of the host fallback `new Date(timeString)` on ISO
calendar-date strings `YYYY-MM-DD` (parsed as midnight of that civil
date), the only directly-formatted timestamp shape this development
relies on; other host-recognised formats are not modelled, which only
narrows the fallback's domain. -/
def parseDirectISO (cs : List Char) : Option DateTime :=
  match cs with
  | [y1, y2, y3, y4, '-', m1, m2, '-', d1, d2] =>
    if isDigitChar y1 && isDigitChar y2 && isDigitChar y3 && isDigitChar y4
        && isDigitChar m1 && isDigitChar m2 && isDigitChar d1 && isDigitChar d2 then
      let y : Int := natOfDigits [y1, y2, y3, y4]
      let m := natOfDigits [m1, m2]
      let d := natOfDigits [d1, d2]
      if 1 ≤ m && m ≤ 12 && 1 ≤ d && d ≤ daysInMonth y m then
        some { year := y, month := m, day := d, hour := 0, minute := 0, second := 0 }
      else none
    else none
  | _ => none

/-- Branch 1 of `parseTimeString`: `in N minutes/hours/days` relative
to `now`.  No past-time check. -/
def tryInBranch (now : DateTime) (cs : List Char) : Option Int :=
  match scanFor matchInAt cs with
  | none => none
  | some (amount, unit) =>
    if unit = "minute" ∨ unit = "minutes" then
      some (msOfDateTime now + amount * 60000)
    else if unit = "hour" ∨ unit = "hours" then
      some (msOfDateTime now + amount * 3600000)
    else some (msOfDateTime now + amount * 86400000)

/-- Branch 2: `tomorrow at H[:M] [am|pm]` — date +1 day, time set.
No past-time check. -/
def tryTomorrowBranch (now : DateTime) (cs : List Char) : Option Int :=
  match scanFor matchTomorrowAt cs with
  | none => none
  | some (h, mi, ap) =>
    some (msOfDateTime (setHoursJS (addDaysJS now 1) (adjustHours h ap) mi))

/-- Branch 3: `today at H[:M] [am|pm]` — returns `null` when the
resulting instant is not strictly after `now`. -/
def tryTodayBranch (now : DateTime) (cs : List Char) : Option Int :=
  match scanFor matchTodayAt cs with
  | none => none
  | some (h, mi, ap) =>
    let t := msOfDateTime (setHoursJS now (adjustHours h ap) mi)
    if t ≤ msOfDateTime now then none else some t

/-- Branch 4: `M/D[/Y] at H[:M] [am|pm]` — the year defaults to
`now`'s, the typed month is decremented (0-based constructor), and a
result not strictly after `now` yields `null`. -/
def tryDateBranch (now : DateTime) (cs : List Char) : Option Int :=
  match scanFor matchDateAt cs with
  | none => none
  | some (month, day, yr, (h, mi, ap)) =>
    let y : Int := match yr with | some yy => (yy : Int) | none => now.year
    let t := msOfDateTime (mkDateJS y ((month : Int) - 1) day (adjustHours h ap) mi)
    if t ≤ msOfDateTime now then none else some t

/-- Branch 5, the fallback: interpret the literal text as a
directly-formatted timestamp.  It performs NO past-time check. -/
def tryDirectBranch (cs : List Char) : Option Int :=
  match parseDirectISO cs with
  | none => none
  | some dt => some (msOfDateTime dt)

/-- `parseTimeString(timeString)` evaluated at clock reading `now`:
the five grammars in source order, first match wins. -/
def parseTimeString (now : DateTime) (timeString : String) : Option Int :=
  let cs := timeString.toList
  match tryInBranch now cs with
  | some t => some t
  | none =>
    match tryTomorrowBranch now cs with
    | some t => some t
    | none =>
      match tryTodayBranch now cs with
      | some t => some t
      | none =>
        match tryDateBranch now cs with
        | some t => some t
        | none => tryDirectBranch cs

/-- `String.prototype.trim()`. -/
def trimChars (cs : List Char) : List Char :=
  ((cs.dropWhile isWsChar).reverse.dropWhile isWsChar).reverse

/-- `text.replace(/^\/remind\s+/i, '')`: strip the leading command
token when present (the `\s+` requires at least one space after it). -/
def stripRemindCmd (cs : List Char) : List Char :=
  match startsWithCI "/remind".toList cs with
  | none => cs
  | some r =>
    let w := takeWs r
    if w.1 = 0 then cs else w.2

/-- Strip a trailing suffix `\s+w1[\s+w2]$` (the recurrence suffix
patterns): working from the end, each word of the pattern must be
preceded by at least one whitespace character, and the whole
whitespace run before the first word is removed with it, exactly as
`content.replace(pattern, '')` removes the leftmost (hence maximal
`\s+`) match anchored at the end. -/
def stripSuffixWords (words : List String) (cs : List Char) : Option (List Char) :=
  let step : List Char → String → Option (List Char) := fun r w =>
    match startsWithCI w.toList.reverse r with
    | none => none
    | some r' =>
      let ws := takeWs r'
      if ws.1 = 0 then none else some ws.2
  match words.reverse.foldl (fun acc w => acc.bind (fun r => step r w)) (some cs.reverse) with
  | none => none
  | some r => some r.reverse

/-- The ordered recurrence suffix table of `parseReminderCommand`. -/
def recurringSuffixes : List (List String × String) :=
  [(["daily"], "daily"), (["every", "day"], "daily"),
   (["weekly"], "weekly"), (["every", "week"], "weekly"),
   (["monthly"], "monthly"), (["every", "month"], "monthly")]

/-- Test the content against the suffix table, first match wins; on a
match the suffix is stripped and the remainder trimmed. -/
def detectRecurring (cs : List Char) : Option String × List Char :=
  match recurringSuffixes.findSome?
      (fun p => (stripSuffixWords p.1 cs).map (fun r => (p.2, r))) with
  | some (ty, r) => (some ty, trimChars r)
  | none => (none, cs)

/-- Leftmost split on `\s+(w|w')\s+` with a lazy prefix, as in
`/^(.*?)\s+(?:to|about)\s+(.*)$/i`: the earliest position where a
whitespace run, one of the separator words (tried in order), and
another whitespace run match; both runs are consumed maximally (the
words start with non-whitespace, so the regex's backtracking cannot
choose a shorter run). -/
def splitSepOnce (seps : List String) (cs : List Char) : Option (List Char × List Char) :=
  let here : List Char → Option (List Char) := fun r =>
    let w1 := takeWs r
    if w1.1 = 0 then none
    else
      seps.findSome? (fun w =>
        match startsWithCI w.toList w1.2 with
        | none => none
        | some r2 =>
          let w2 := takeWs r2
          if w2.1 = 0 then none else some w2.2)
  let rec go (pre rest : List Char) : Option (List Char × List Char) :=
    match rest with
    | [] => none
    | c :: rs =>
      match here (c :: rs) with
      | some tail => some (pre.reverse, tail)
      | none => go (c :: pre) rs
  go [] cs

/-- A successfully parsed reminder command. -/
structure ParsedReminder where
  text : String
  time : Int
  recurring : Option String
deriving DecidableEq, Repr

/-- `parseReminderCommand(text)` evaluated at clock reading `now`:
strip the command token, detect and strip a recurrence suffix, then
try the `time (to|about) subject` grammar and, when it yields no
parsable time, the `subject (at|on) time` grammar. -/
def parseReminderCommand (now : DateTime) (text : String) : Option ParsedReminder :=
  let content := trimChars (stripRemindCmd text.toList)
  let rc := detectRecurring content
  let tryTo : Option ParsedReminder :=
    match splitSepOnce ["to", "about"] rc.2 with
    | none => none
    | some (l, r) =>
      match parseTimeString now (String.mk (trimChars l)) with
      | some t => some ⟨String.mk (trimChars r), t, rc.1⟩
      | none => none
  match tryTo with
  | some p => some p
  | none =>
    match splitSepOnce ["at", "on"] rc.2 with
    | none => none
    | some (l, r) =>
      match parseTimeString now (String.mk (trimChars r)) with
      | some t => some ⟨String.mk (trimChars l), t, rc.1⟩
      | none => none

/-- The clock reading used by the concrete parser scenarios. -/
def sampleNow : DateTime := ⟨2024, 3, 1, 10, 0, 0⟩

example :
    parseTimeString sampleNow "in 2 hours"
      = some (msOfDateTime sampleNow + 7200000) := by decide

example :
    parseReminderCommand sampleNow "in 2 hours to call mom"
      = some ⟨"call mom", msOfDateTime ⟨2024, 3, 1, 12, 0, 0⟩, none⟩ := by decide

example : parseTimeString sampleNow "today at 9am" = none := by decide

example : parseTimeString sampleNow "1/1 at 9am" = none := by decide

example :
    parseTimeString sampleNow "2020-01-01"
      = some (msOfDateTime ⟨2020, 1, 1, 0, 0, 0⟩) := by decide

/-! ### Calendar arithmetic lemmas -/

theorem isLeapYear_iff (y : Int) :
    isLeapYear y = true ↔
      (y % 4 = 0 ∧ y % 100 ≠ 0) ∨ y % 400 = 0 := by
  simp [isLeapYear, Bool.or_eq_true, Bool.and_eq_true, beq_iff_eq, bne_iff_ne]

/-- `daysFromCivil` is linear in the day argument, so it extends the
epoch-day count of valid dates linearly through day overflow. -/
theorem daysFromCivil_add (y : Int) (m d n : Nat) :
    daysFromCivil y m (d + n) = daysFromCivil y m d + n := by
  simp only [daysFromCivil, yAdj]
  split <;> push_cast <;> omega

/-- One normalisation step of `normDateAux` preserves the epoch-day
count. -/
theorem daysFromCivil_step (y : Int) (m d : Nat) (h1 : 1 ≤ m) (h2 : m ≤ 12)
    (hd : daysInMonth y m < d) :
    (if m = 12 then daysFromCivil (y + 1) 1 (d - daysInMonth y m)
     else daysFromCivil y (m + 1) (d - daysInMonth y m)) = daysFromCivil y m d := by
  interval_cases m
  · simp only [daysFromCivil, yAdj, daysInMonth] at *
    norm_num at *
    omega
  · have hly := isLeapYear_iff y
    simp only [daysFromCivil, yAdj, daysInMonth] at *
    cases h : isLeapYear y <;> simp [h] at hly hd ⊢ <;> norm_num at * <;> omega
  · simp only [daysFromCivil, yAdj, daysInMonth] at *
    norm_num at *
    omega
  · simp only [daysFromCivil, yAdj, daysInMonth] at *
    norm_num at *
    omega
  · simp only [daysFromCivil, yAdj, daysInMonth] at *
    norm_num at *
    omega
  · simp only [daysFromCivil, yAdj, daysInMonth] at *
    norm_num at *
    omega
  · simp only [daysFromCivil, yAdj, daysInMonth] at *
    norm_num at *
    omega
  · simp only [daysFromCivil, yAdj, daysInMonth] at *
    norm_num at *
    omega
  · simp only [daysFromCivil, yAdj, daysInMonth] at *
    norm_num at *
    omega
  · simp only [daysFromCivil, yAdj, daysInMonth] at *
    norm_num at *
    omega
  · simp only [daysFromCivil, yAdj, daysInMonth] at *
    norm_num at *
    omega
  · simp only [daysFromCivil, yAdj, daysInMonth] at *
    norm_num at *
    omega

/-- Full normalisation preserves the epoch-day count (for any fuel). -/
theorem daysFromCivil_normDateAux (fuel : Nat) :
    ∀ (y : Int) (m d : Nat), 1 ≤ m → m ≤ 12 →
      daysFromCivil (normDateAux fuel y m d).1 (normDateAux fuel y m d).2.1
          (normDateAux fuel y m d).2.2
        = daysFromCivil y m d := by
  induction fuel with
  | zero => intro y m d _ _; rfl
  | succ fuel ih =>
    intro y m d h1 h2
    rw [normDateAux]
    by_cases hle : d ≤ daysInMonth y m
    · simp [hle]
    · have hd : daysInMonth y m < d := Nat.lt_of_not_le hle
      by_cases hm : m = 12
      · subst hm
        simp only [hle, if_false, if_true, reduceIte]
        rw [ih (y + 1) 1 (d - daysInMonth y 12) (by norm_num) (by norm_num)]
        have := daysFromCivil_step y 12 d (by norm_num) (by norm_num) hd
        simpa using this
      · simp only [hle, hm, if_false, reduceIte]
        rw [ih y (m + 1) (d - daysInMonth y m) (by omega) (by omega)]
        have := daysFromCivil_step y m d h1 h2 hd
        simpa [hm] using this

/-- `setDate(getDate() + n)` advances the epoch instant by exactly
`n` days' worth of milliseconds (for a record with a well-formed
month field). -/
theorem msOfDateTime_addDaysJS (dt : DateTime) (n : Nat)
    (h1 : 1 ≤ dt.month) (h2 : dt.month ≤ 12) :
    msOfDateTime (addDaysJS dt n) = msOfDateTime dt + n * 86400000 := by
  simp only [addDaysJS, msOfDateTime]
  rw [daysFromCivil_normDateAux (dt.day + n) dt.year dt.month (dt.day + n) h1 h2]
  rw [daysFromCivil_add]
  ring

/-! ### Store and timer-table lemmas -/

theorem find?_map_keyUpdate (l : RemList) (k : String) (v : Reminder)
    (h : l.any (fun q => q.1 == k) = true) :
    (l.map (fun q => if q.1 == k then (k, v) else q)).find? (fun q => q.1 == k)
      = some (k, v) := by
  induction l with
  | nil => simp at h
  | cons q rest ih =>
    by_cases hq : q.1 = k
    · simp [List.find?_cons, hq]
    · have hq2 : (q.1 == k) = false := by simp [hq]
      simp only [List.any_cons, hq2, Bool.false_or] at h
      simp only [List.map_cons, hq2, Bool.false_eq_true, if_false]
      rw [List.find?_cons_of_neg _ (by simp [hq])]
      exact ih h

theorem find?_setIn (l : RemList) (k : String) (v : Reminder) :
    (setIn l k v).find? (fun q => q.1 == k) = some (k, v) := by
  unfold setIn
  by_cases h : l.any (fun q => q.1 == k) = true
  · simp only [h, if_true]
    exact find?_map_keyUpdate l k v h
  · simp only [Bool.not_eq_true] at h
    simp only [h, Bool.false_eq_true, if_false]
    have hnone : l.find? (fun q => q.1 == k) = none := by
      rw [List.find?_eq_none]
      intro x hx hpx
      have hax : l.any (fun q => q.1 == k) = true := List.any_eq_true.mpr ⟨x, hx, hpx⟩
      rw [h] at hax
      exact Bool.false_ne_true hax
    rw [List.find?_append, hnone]
    simp [List.find?_cons]

theorem length_setIn (l : RemList) (k : String) (v : Reminder)
    (h : l.any (fun q => q.1 == k) = true) :
    (setIn l k v).length = l.length := by
  unfold setIn
  simp [h]

theorem length_setIn_fresh (l : RemList) (k : String) (v : Reminder)
    (h : l.any (fun q => q.1 == k) = false) :
    (setIn l k v).length = l.length + 1 := by
  unfold setIn
  simp [h]

theorem lookupUser_setRem (store : Store) (u rid : String) (v : Reminder) :
    lookupUser (setRem store u rid v) u
      = (lookupUser store u).map (fun rems => setIn rems rid v) := by
  induction store with
  | nil => rfl
  | cons p st ih =>
    by_cases hp : p.1 = u
    · simp [lookupUser, setRem, List.find?_cons, hp]
    · have hp2 : (p.1 == u) = false := by simp [hp]
      simp only [setRem, List.map_cons, hp2, Bool.false_eq_true, if_false] at ih ⊢
      simp only [lookupUser] at ih ⊢
      rw [List.find?_cons_of_neg _ (by simp [hp]),
        List.find?_cons_of_neg _ (by simp [hp])]
      exact ih

theorem lookup2_setRem (store : Store) (u rid : String) (v : Reminder)
    (h : (lookupUser store u).isSome) :
    lookup2 (setRem store u rid v) u rid = some v := by
  rcases Option.isSome_iff_exists.mp h with ⟨rems, hl⟩
  unfold lookup2
  rw [lookupUser_setRem, hl]
  simp [find?_setIn]

theorem lookupUser_isSome_of_lookup2 (store : Store) (u rid : String)
    (r : Reminder) (h : lookup2 store u rid = some r) :
    (lookupUser store u).isSome := by
  unfold lookup2 at h
  rcases Option.bind_eq_some.mp h with ⟨rems, hl, _⟩
  rw [hl]
  rfl

theorem any_of_find?_eq_some (l : RemList) (k : String) (q0 : String × Reminder)
    (h : l.find? (fun q => q.1 == k) = some q0) :
    l.any (fun q => q.1 == k) = true := by
  have hm : q0 ∈ l := List.mem_of_find?_eq_some h
  have hp := List.find?_some h
  exact List.any_eq_true.mpr ⟨q0, hm, hp⟩

theorem ownerLen_setRem (store : Store) (u rid : String) (v r : Reminder)
    (h : lookup2 store u rid = some r) :
    ownerLen (setRem store u rid v) u = ownerLen store u := by
  unfold lookup2 at h
  rcases Option.bind_eq_some.mp h with ⟨rems, hl, hmap⟩
  rcases Option.map_eq_some'.mp hmap with ⟨q, hf, _⟩
  unfold ownerLen
  rw [lookupUser_setRem, hl]
  simp [length_setIn rems rid v (any_of_find?_eq_some rems rid q hf)]

theorem ownerLen_setRem_fresh (store : Store) (u rid : String) (v : Reminder)
    (hu : (lookupUser store u).isSome) (h : lookup2 store u rid = none) :
    ownerLen (setRem store u rid v) u = ownerLen store u + 1 := by
  rcases Option.isSome_iff_exists.mp hu with ⟨rems, hl⟩
  unfold lookup2 at h
  rw [hl] at h
  simp only [Option.some_bind] at h
  have hf : rems.find? (fun q => q.1 == rid) = none := by
    cases hf2 : rems.find? (fun q => q.1 == rid) with
    | none => rfl
    | some q => rw [hf2] at h; simp at h
  have hany : rems.any (fun q => q.1 == rid) = false := by
    cases hb : rems.any (fun q => q.1 == rid) with
    | false => rfl
    | true =>
      rcases List.any_eq_true.mp hb with ⟨x, hx, hpx⟩
      exact absurd hpx (List.find?_eq_none.mp hf x hx)
  unfold ownerLen
  rw [lookupUser_setRem, hl]
  simp [length_setIn_fresh rems rid v hany]

theorem lookup2_eraseRem (store : Store) (u rid : String) :
    lookup2 (eraseRem store u rid) u rid = none := by
  induction store with
  | nil => rfl
  | cons p st ih =>
    unfold eraseRem at ih ⊢
    simp only [List.filterMap_cons]
    by_cases hp : p.1 = u
    · have hp2 : (p.1 == u) = true := by simp [hp]
      simp only [hp2, if_true, reduceIte]
      cases he : (p.2.filter (fun q => ¬ q.1 == rid)).isEmpty with
      | true =>
        simp only [reduceIte]
        exact ih
      | false =>
        rw [if_neg (by simp)]
        unfold lookup2 lookupUser
        rw [List.find?_cons_of_pos _ (by simp [hp])]
        have hnone : (p.2.filter (fun q => ¬ q.1 == rid)).find?
            (fun q => q.1 == rid) = none := by
          rw [List.find?_eq_none]
          intro x hx
          exact of_decide_eq_true (List.mem_filter.mp hx).2
        simp only [Option.map_some', Option.some_bind]
        rw [hnone]
        rfl
    · have hp2 : (p.1 == u) = false := by simp [hp]
      simp only [hp2, Bool.false_eq_true, if_false, reduceIte]
      unfold lookup2 lookupUser at ih ⊢
      rw [List.find?_cons_of_neg _ (by simp [hp])]
      exact ih

theorem timerFor_cancelTimer_self (tms : Timers) (u rid : String) :
    timerFor (cancelTimer tms u rid) u rid = none := by
  unfold timerFor cancelTimer
  have hnone : (tms.filter (fun e => ¬ (e.1 == u && e.2.1 == rid))).find?
      (fun e => e.1 == u && e.2.1 == rid) = none := by
    rw [List.find?_eq_none]
    intro x hx
    exact of_decide_eq_true (List.mem_filter.mp hx).2
  rw [hnone]
  rfl

theorem find?_map_timerUpdate (tms : Timers) (u rid : String) (t : Int)
    (h : tms.any (fun e => e.1 == u && e.2.1 == rid) = true) :
    (tms.map (fun e => if e.1 == u && e.2.1 == rid then (u, rid, t) else e)).find?
        (fun e => e.1 == u && e.2.1 == rid) = some (u, rid, t) := by
  induction tms with
  | nil => simp at h
  | cons e rest ih =>
    by_cases he : e.1 = u ∧ e.2.1 = rid
    · simp [List.find?_cons, he.1, he.2]
    · have he2 : (e.1 == u && e.2.1 == rid) = false := by
        rcases not_and_or.mp he with h1 | h1 <;> simp [h1]
      simp only [List.any_cons, he2, Bool.false_or] at h
      simp only [List.map_cons, he2, Bool.false_eq_true, if_false]
      rw [List.find?_cons_of_neg _ (by simp [he2])]
      exact ih h

theorem timerFor_setTimer_self (tms : Timers) (u rid : String) (t : Int) :
    timerFor (setTimer tms u rid t) u rid = some t := by
  unfold setTimer timerFor
  by_cases h : tms.any (fun e => e.1 == u && e.2.1 == rid) = true
  · simp only [h, if_true]
    rw [find?_map_timerUpdate tms u rid t h]
    rfl
  · simp only [Bool.not_eq_true] at h
    simp only [h, Bool.false_eq_true, if_false]
    have hnone : tms.find? (fun e => e.1 == u && e.2.1 == rid) = none := by
      rw [List.find?_eq_none]
      intro x hx hpx
      have hax : tms.any (fun e => e.1 == u && e.2.1 == rid) = true :=
        List.any_eq_true.mpr ⟨x, hx, hpx⟩
      rw [h] at hax
      exact Bool.false_ne_true hax
    rw [List.find?_append, hnone]
    simp [List.find?_cons]

theorem find?_map_timerUpdate_other (tms : Timers) (u rid u2 rid2 : String)
    (t : Int) (hkey : ((u : String) == u2 && (rid : String) == rid2) = false) :
    (tms.map (fun e => if e.1 == u && e.2.1 == rid then (u, rid, t) else e)).find?
        (fun e => e.1 == u2 && e.2.1 == rid2)
      = tms.find? (fun e => e.1 == u2 && e.2.1 == rid2) := by
  induction tms with
  | nil => rfl
  | cons e rest ih =>
    by_cases he : e.1 = u ∧ e.2.1 = rid
    · have he1 : (e.1 == u && e.2.1 == rid) = true := by simp [he.1, he.2]
      have hep : (e.1 == u2 && e.2.1 == rid2) = false := by
        rw [he.1, he.2]
        exact hkey
      simp only [List.map_cons, he1, if_true, reduceIte]
      rw [List.find?_cons_of_neg _ (by simp [hkey]),
        List.find?_cons_of_neg _ (by simp [hep])]
      exact ih
    · have he1 : (e.1 == u && e.2.1 == rid) = false := by
        rcases not_and_or.mp he with h1 | h1 <;> simp [h1]
      simp only [List.map_cons, he1, Bool.false_eq_true, if_false]
      cases hf : (e.1 == u2 && e.2.1 == rid2) with
      | true =>
        rw [List.find?_cons_of_pos _ (by simp [hf]),
          List.find?_cons_of_pos _ (by simp [hf])]
      | false =>
        rw [List.find?_cons_of_neg _ (by simp [hf]),
          List.find?_cons_of_neg _ (by simp [hf])]
        exact ih

theorem timerFor_setTimer_other (tms : Timers) (u rid u2 rid2 : String) (t : Int)
    (h : ¬ (u2 = u ∧ rid2 = rid)) :
    timerFor (setTimer tms u rid t) u2 rid2 = timerFor tms u2 rid2 := by
  have hkey : ((u : String) == u2 && (rid : String) == rid2) = false := by
    by_cases h1 : u = u2
    · by_cases h2 : rid = rid2
      · exact absurd ⟨h1.symm, h2.symm⟩ h
      · simp [h2]
    · simp [h1]
  unfold setTimer timerFor
  by_cases ha : tms.any (fun e => e.1 == u && e.2.1 == rid) = true
  · simp only [ha, if_true]
    rw [find?_map_timerUpdate_other tms u rid u2 rid2 t hkey]
  · simp only [Bool.not_eq_true] at ha
    simp only [ha, Bool.false_eq_true, if_false]
    rw [List.find?_append]
    cases hf : tms.find? (fun e => e.1 == u2 && e.2.1 == rid2) with
    | none =>
      simp only [hf, Option.none_or]
      rw [List.find?_cons_of_neg _ (by simp [hkey])]
      rfl
    | some e => simp [hf]

/-! ### Recovery-pass characterisation -/

/-- Well-formedness that every JSON collection enjoys: object keys are
duplicate-free at both levels. -/
def WFStore (store : Store) : Prop :=
  store.Pairwise (fun a b => a.1 ≠ b.1) ∧
    ∀ p ∈ store, p.2.Pairwise (fun a b => a.1 ≠ b.1)

instance : DecidablePred WFStore := fun store => by
  unfold WFStore
  infer_instance

theorem timerFor_armFold_other (nowMs : Int) (uid : String) (rems : RemList)
    (tms : Timers) (u rid : String) (hu : u ≠ uid) :
    timerFor (rems.foldl (fun tms q =>
        if q.2.completed || decide (msOfDateTime q.2.time < nowMs) then tms
        else scheduleReminder nowMs tms uid q.1 q.2) tms) u rid
      = timerFor tms u rid := by
  induction rems generalizing tms with
  | nil => rfl
  | cons q rest ih =>
    simp only [List.foldl_cons]
    rw [ih]
    by_cases hskip : (q.2.completed || decide (msOfDateTime q.2.time < nowMs)) = true
    · rw [if_pos hskip]
    · rw [if_neg hskip]
      unfold scheduleReminder
      by_cases ht : msOfDateTime q.2.time < nowMs
      · rw [if_pos ht]
      · rw [if_neg ht]
        exact timerFor_setTimer_other tms uid q.1 u rid _ (fun hc => hu hc.1)

theorem timerFor_armFold_self (nowMs : Int) (uid : String) (rems : RemList)
    (tms : Timers) (rid : String)
    (hws : rems.Pairwise (fun a b => a.1 ≠ b.1)) :
    timerFor (rems.foldl (fun tms q =>
        if q.2.completed || decide (msOfDateTime q.2.time < nowMs) then tms
        else scheduleReminder nowMs tms uid q.1 q.2) tms) uid rid
      = match rems.find? (fun q => q.1 == rid) with
        | some q =>
          if q.2.completed = false ∧ nowMs ≤ msOfDateTime q.2.time
          then some (msOfDateTime q.2.time)
          else timerFor tms uid rid
        | none => timerFor tms uid rid := by
  induction rems generalizing tms with
  | nil => rfl
  | cons q rest ih =>
    simp only [List.foldl_cons]
    have hpw := List.pairwise_cons.mp hws
    rw [ih _ hpw.2]
    by_cases hq : q.1 = rid
    · have hrest : rest.find? (fun q2 => q2.1 == rid) = none := by
        rw [List.find?_eq_none]
        intro x hx hpx
        have hx1 : x.1 = rid := by simpa using hpx
        exact hpw.1 x hx (hq.trans hx1.symm)
      rw [hrest, List.find?_cons_of_pos _ (by simp [hq])]
      dsimp only
      cases hc : q.2.completed with
      | true =>
        rw [if_pos (by simp [hc]), if_neg (by simp [hc])]
      | false =>
        by_cases ht : msOfDateTime q.2.time < nowMs
        · rw [if_pos (by simp [hc, ht]), if_neg (fun hk => absurd ht (not_lt.mpr hk.2))]
        · rw [if_neg (by simp [hc, ht])]
          unfold scheduleReminder
          rw [if_neg ht, if_pos ⟨rfl, not_lt.mp ht⟩, hq]
          exact timerFor_setTimer_self tms uid rid (msOfDateTime q.2.time)
    · rw [List.find?_cons_of_neg _ (by simp [hq])]
      have hstep : timerFor
          (if q.2.completed || decide (msOfDateTime q.2.time < nowMs) then tms
           else scheduleReminder nowMs tms uid q.1 q.2) uid rid
          = timerFor tms uid rid := by
        by_cases hskip : (q.2.completed || decide (msOfDateTime q.2.time < nowMs)) = true
        · rw [if_pos hskip]
        · rw [if_neg hskip]
          unfold scheduleReminder
          by_cases ht : msOfDateTime q.2.time < nowMs
          · rw [if_pos ht]
          · rw [if_neg ht]
            exact timerFor_setTimer_other tms uid q.1 uid rid _
              (fun hc => hq (hc.2.symm))
      cases hrf : rest.find? (fun q2 => q2.1 == rid) with
      | none => exact hstep
      | some q2 =>
        dsimp only
        by_cases hk : q2.2.completed = false ∧ nowMs ≤ msOfDateTime q2.2.time
        · rw [if_pos hk, if_pos hk]
        · rw [if_neg hk, if_neg hk]
          exact hstep

theorem timerFor_initFold_other (nowMs : Int) (store : Store) (tms : Timers)
    (u rid : String) (hu : ∀ p ∈ store, p.1 ≠ u) :
    timerFor (store.foldl (fun tms p => p.2.foldl (fun tms q =>
        if q.2.completed || decide (msOfDateTime q.2.time < nowMs) then tms
        else scheduleReminder nowMs tms p.1 q.1 q.2) tms) tms) u rid
      = timerFor tms u rid := by
  induction store generalizing tms with
  | nil => rfl
  | cons p st ih =>
    simp only [List.foldl_cons]
    rw [ih _ (fun p2 hp2 => hu p2 (List.mem_cons_of_mem p hp2))]
    exact timerFor_armFold_other nowMs p.1 p.2 tms u rid
      (fun he => hu p (List.mem_cons_self p st) he.symm)

theorem timerFor_initFold (nowMs : Int) (store : Store) (tms : Timers)
    (u rid : String) (hwf : WFStore store) :
    timerFor (store.foldl (fun tms p => p.2.foldl (fun tms q =>
        if q.2.completed || decide (msOfDateTime q.2.time < nowMs) then tms
        else scheduleReminder nowMs tms p.1 q.1 q.2) tms) tms) u rid
      = match lookup2 store u rid with
        | some r =>
          if r.completed = false ∧ nowMs ≤ msOfDateTime r.time
          then some (msOfDateTime r.time)
          else timerFor tms u rid
        | none => timerFor tms u rid := by
  induction store generalizing tms with
  | nil => rfl
  | cons p st ih =>
    have hpw := List.pairwise_cons.mp hwf.1
    have hin : p.2.Pairwise (fun a b => a.1 ≠ b.1) :=
      hwf.2 p (List.mem_cons_self p st)
    simp only [List.foldl_cons]
    by_cases hpu : p.1 = u
    · rw [timerFor_initFold_other nowMs st _ u rid
        (fun p2 hp2 he => hpw.1 p2 hp2 (hpu.trans he.symm) )]
      subst hpu
      rw [timerFor_armFold_self nowMs p.1 p.2 tms rid hin]
      unfold lookup2 lookupUser
      rw [List.find?_cons_of_pos _ (by simp)]
      simp only [Option.map_some', Option.some_bind]
      cases hf : p.2.find? (fun q => q.1 == rid) with
      | none => rfl
      | some q => rfl
    · have hwf2 : WFStore st :=
        ⟨hpw.2, fun p2 hp2 => hwf.2 p2 (List.mem_cons_of_mem p hp2)⟩
      rw [ih _ hwf2]
      have hstep : timerFor (p.2.foldl (fun tms q =>
          if q.2.completed || decide (msOfDateTime q.2.time < nowMs) then tms
          else scheduleReminder nowMs tms p.1 q.1 q.2) tms) u rid
          = timerFor tms u rid :=
        timerFor_armFold_other nowMs p.1 p.2 tms u rid (fun he => hpu he.symm)
      have hlk : lookup2 (p :: st) u rid = lookup2 st u rid := by
        unfold lookup2 lookupUser
        rw [List.find?_cons_of_neg _ (by simp [hpu])]
      rw [hlk]
      cases hl2 : lookup2 st u rid with
      | none => exact hstep
      | some r =>
        dsimp only
        by_cases hk : r.completed = false ∧ nowMs ≤ msOfDateTime r.time
        · rw [if_pos hk, if_pos hk]
        · rw [if_neg hk, if_neg hk]
          exact hstep

/-! ### Specification-side definition (for comparison) -/

/-- Formalisation of the SPEC's words for the monthly rollover ("+1
calendar month (day-of-month preserved; overflow into a shorter month
clamps per the host's date arithmetic)"): the month advances and the
day-of-month is clamped to the target month's length.  This definition
follows the specification text, to be compared with the source-derived
`addMonthJS`. -/
def monthlySpecClamp (dt : DateTime) : DateTime :=
  let y := if dt.month = 12 then dt.year + 1 else dt.year
  let m := if dt.month = 12 then 1 else dt.month + 1
  { dt with year := y, month := m, day := min dt.day (daysInMonth y m) }

/-! ### Concrete fixtures used by the claim theorems -/

/-- A sample due instant (2024-03-05 09:00). -/
def sampleTime : DateTime := ⟨2024, 3, 5, 9, 0, 0⟩

/-- A non-recurring reminder as captured when its timer was armed. -/
def remOld : Reminder := ⟨"OLD", sampleTime, 0, false, none⟩

/-- The same record after an edit changed its text in the store. -/
def remNew : Reminder := ⟨"NEW", sampleTime, 0, false, none⟩

/-- A daily-recurring reminder. -/
def remDaily : Reminder := ⟨"water the plants", sampleTime, 0, false, some "daily"⟩

/-- A reminder whose recurrence field holds an unrecognized value. -/
def remYearly : Reminder := ⟨"taxes", sampleTime, 0, false, some "yearly"⟩

/-- A user profile with a companion configured. -/
def sampleUD : UserData := ⟨"Alice", some "Luna"⟩

/-! ### Claim theorems -/

/-- Claim C1, counterexample.  The store's current record for
`("u","1")` carries text `"NEW"`, but the firing path hands the
notification sink the message built from the copy captured at arm time
(text `"OLD"`), which differs from the message built from the current
record: the controller does NOT re-read the record before delivering. -/
theorem c1_counterexample :
    (sendReminderNotification (some sampleUD) true [("u", [("1", remNew)])] []
        "u" "1" remOld).2
      = some (formatReminderMessage sampleUD remOld)
    ∧ lookup2 [("u", [("1", remNew)])] "u" "1" = some remNew
    ∧ formatReminderMessage sampleUD remOld
        ≠ formatReminderMessage sampleUD remNew := by
  refine ⟨by decide, by decide, ?_⟩
  decide

/-- Claim C1, amended.  When a reminder's timer fires, the controller
does not re-read the record for delivery: the text handed to the
notification sink is built entirely from the reminder copy captured
when the timer was armed (only the user profile is fetched), whatever
the store currently holds; the store is re-read only afterwards, in
`markReminderAsCompleted`, to advance or delete the record. -/
theorem c1_amended_staleTextDelivered (ud : UserData) (ok : Bool)
    (store : Store) (tms : Timers) (uid rid : String) (rem : Reminder) :
    (sendReminderNotification (some ud) ok store tms uid rid rem).2
      = some (formatReminderMessage ud rem) := by
  unfold sendReminderNotification
  cases ok <;> rfl

/-- Claim C2, counterexample.  Firing the daily reminder advances its
stored time, but the pending timer is cancelled and nothing is
re-armed: the timer table is left empty, refuting "a live timer is
re-armed for that new instant, so the reminder remains armed". -/
theorem c2_counterexample :
    (markReminderAsCompleted [("u", [("1", remDaily)])]
        [("u", "1", msOfDateTime sampleTime)] "u" "1" (some "daily")).2 = []
    ∧ lookup2 (markReminderAsCompleted [("u", [("1", remDaily)])]
        [("u", "1", msOfDateTime sampleTime)] "u" "1" (some "daily")).1 "u" "1"
      = some { remDaily with time := addDaysJS sampleTime 1 } := by
  constructor
  · decide
  · decide

/-- Claim C2, amended.  For a recognized recurrence pattern the firing
path never deletes the record: the record's `time` is persisted as the
advanced next occurrence and the owner's record count is unchanged —
but the pending timer is cancelled and NO timer is re-armed for the
new instant (the source defers rescheduling to the next restart). -/
theorem c2_amended_rolloverNoRearm (store : Store) (tms : Timers)
    (u rid : String) (r : Reminder) (pat : String) (nt : DateTime)
    (hl : lookup2 store u rid = some r)
    (hpat : truthy (some pat) = true)
    (hnt : nextTimeOf pat r.time = some nt) :
    lookup2 (markReminderAsCompleted store tms u rid (some pat)).1 u rid
      = some { r with time := nt }
    ∧ ownerLen (markReminderAsCompleted store tms u rid (some pat)).1 u
      = ownerLen store u
    ∧ timerFor (markReminderAsCompleted store tms u rid (some pat)).2 u rid
      = none := by
  have hres : markReminderAsCompleted store tms u rid (some pat)
      = (setRem store u rid { r with time := nt }, cancelTimer tms u rid) := by
    unfold markReminderAsCompleted
    rw [hl]
    dsimp only
    rw [if_pos hpat]
    dsimp only [Option.getD_some]
    rw [hnt]
  rw [hres]
  exact ⟨lookup2_setRem store u rid _ (lookupUser_isSome_of_lookup2 store u rid r hl),
    ownerLen_setRem store u rid _ r hl,
    timerFor_cancelTimer_self tms u rid⟩

/-- Claim C2, witness: the amended theorem applied to a concrete
one-reminder store. -/
theorem c2_amended_witness :
    lookup2 [("u", [("1", remDaily)])] "u" "1" = some remDaily
    ∧ lookup2 (markReminderAsCompleted [("u", [("1", remDaily)])] [] "u" "1"
        (some "daily")).1 "u" "1"
      = some { remDaily with time := addDaysJS remDaily.time 1 } :=
  ⟨by decide,
    (c2_amended_rolloverNoRearm [("u", [("1", remDaily)])] [] "u" "1" remDaily
      "daily" (addDaysJS remDaily.time 1) (by decide) (by decide) (by decide)).1⟩

/-- Claim C3, counterexample.  With delivery failing
(`deliveryOk = false`) on a non-recurring reminder, the firing path
leaves the store and timer table exactly as they were: the record is
NOT deleted, refuting "a non-recurring reminder is still deleted
exactly as it would be on successful delivery". -/
theorem c3_counterexample :
    (sendReminderNotification (some sampleUD) false [("u", [("1", remOld)])]
        [("u", "1", msOfDateTime sampleTime)] "u" "1" remOld).1
      = ([("u", [("1", remOld)])], [("u", "1", msOfDateTime sampleTime)])
    ∧ lookup2 [("u", [("1", remOld)])] "u" "1" = some remOld := by
  constructor
  · decide
  · decide

/-- Claim C3, amended.  Delivery failure is logged and swallowed (the
firing path never throws), but it ABORTS the remaining steps: the
whole firing path runs in one `try/catch`, so `markReminderAsCompleted`
is never reached and the state is unchanged — a non-recurring reminder
is not deleted and a recurring reminder's `dueAt` does not advance. -/
theorem c3_amended_failureBlocksRollover (userData : Option UserData)
    (store : Store) (tms : Timers) (uid rid : String) (rem : Reminder) :
    (sendReminderNotification userData false store tms uid rid rem).1
      = (store, tms) := by
  unfold sendReminderNotification
  cases userData <;> rfl

/-- Claim C4 (confirmed).  Firing a reminder whose captured recurrence
is `none` with successful delivery leaves NO record for
`(ownerId, id)` in the store: the record is physically deleted (and
the emptied user object cleaned up), never persisted with
`completed = true`. -/
theorem c4_nonRecurringDeleted (ud : UserData) (store : Store) (tms : Timers)
    (uid rid : String) (rem : Reminder) (h : rem.recurring = none) :
    lookup2 (sendReminderNotification (some ud) true store tms uid rid rem).1.1
        uid rid = none := by
  unfold sendReminderNotification
  dsimp only
  rw [if_pos rfl, h]
  unfold markReminderAsCompleted
  cases hl : lookup2 store uid rid with
  | none => exact hl
  | some r =>
    dsimp only
    rw [if_neg (by simp [truthy])]
    exact lookup2_eraseRem store uid rid

/-- Claim C4, witness: the deletion theorem applied to a concrete
non-recurring reminder. -/
theorem c4_witness :
    remOld.recurring = none
    ∧ lookup2 (sendReminderNotification (some sampleUD) true
        [("u", [("1", remOld)])] [] "u" "1" remOld).1.1 "u" "1" = none :=
  ⟨by decide,
    c4_nonRecurringDeleted sampleUD [("u", [("1", remOld)])] [] "u" "1" remOld
      (by decide)⟩

/-- Claim C5, counterexample.  Firing a monthly reminder due
2023-01-31 09:00 persists 2023-03-03 09:00: the host's `setMonth`
arithmetic rolls the day overflow FORWARD into March instead of
clamping to 2023-02-28 as the claim ("overflow into a shorter month
clamping") describes. -/
theorem c5_counterexample :
    lookup2 (markReminderAsCompleted
        [("u", [("1", (⟨"m", ⟨2023, 1, 31, 9, 0, 0⟩, 0, false, some "monthly"⟩ :
          Reminder))])] [] "u" "1" (some "monthly")).1 "u" "1"
      = some ⟨"m", ⟨2023, 3, 3, 9, 0, 0⟩, 0, false, some "monthly"⟩
    ∧ monthlySpecClamp ⟨2023, 1, 31, 9, 0, 0⟩ = ⟨2023, 2, 28, 9, 0, 0⟩
    ∧ (⟨2023, 3, 3, 9, 0, 0⟩ : DateTime) ≠ ⟨2023, 2, 28, 9, 0, 0⟩ := by
  refine ⟨by decide, by decide, by decide⟩

/-- Claim C5, amended.  The next occurrence is computed from the
record's current persisted `dueAt` (the function takes no clock):
daily advances the stored instant by exactly 86 400 000 ms and weekly
by exactly 604 800 000 ms, while monthly increments the month field
keeping the day-of-month, a day overflowing a shorter month rolling
forward into the following month (host normalisation), not clamping. -/
theorem c5_amended_recurrenceArithmetic (store : Store) (tms : Timers)
    (u rid : String) (r : Reminder)
    (hl : lookup2 store u rid = some r)
    (h1 : 1 ≤ r.time.month) (h2 : r.time.month ≤ 12) :
    (markReminderAsCompleted store tms u rid (some "daily")).1
      = setRem store u rid { r with time := addDaysJS r.time 1 }
    ∧ msOfDateTime (addDaysJS r.time 1) = msOfDateTime r.time + 86400000
    ∧ (markReminderAsCompleted store tms u rid (some "weekly")).1
      = setRem store u rid { r with time := addDaysJS r.time 7 }
    ∧ msOfDateTime (addDaysJS r.time 7) = msOfDateTime r.time + 604800000
    ∧ (markReminderAsCompleted store tms u rid (some "monthly")).1
      = setRem store u rid { r with time := addMonthJS r.time } := by
  refine ⟨?_, ?_, ?_, ?_, ?_⟩
  · unfold markReminderAsCompleted
    rw [hl]
    rfl
  · have h := msOfDateTime_addDaysJS r.time 1 h1 h2
    omega
  · unfold markReminderAsCompleted
    rw [hl]
    rfl
  · have h := msOfDateTime_addDaysJS r.time 7 h1 h2
    omega
  · unfold markReminderAsCompleted
    rw [hl]
    rfl

/-- Claim C5, witness: the arithmetic theorem applied to a concrete
store holding a daily reminder due 2024-03-05 09:00. -/
theorem c5_witness :
    lookup2 [("u", [("1", remDaily)])] "u" "1" = some remDaily
    ∧ msOfDateTime (addDaysJS remDaily.time 1)
      = msOfDateTime remDaily.time + 86400000 :=
  ⟨by decide,
    (c5_amended_recurrenceArithmetic [("u", [("1", remDaily)])] [] "u" "1"
      remDaily (by decide) (by decide) (by decide)).2.1⟩

/-- Claim C6, counterexample.  Firing a reminder whose recurrence
field holds the unrecognized value `"yearly"` does NOT delete it: the
record is kept in the store, marked `completed = true`. -/
theorem c6_counterexample :
    lookup2 (markReminderAsCompleted [("u", [("1", remYearly)])] [] "u" "1"
        (some "yearly")).1 "u" "1"
      = some { remYearly with completed := true } := by
  decide

/-- Claim C6, amended.  An unrecognized (truthy) recurrence value is
NOT treated like the non-recurring case: instead of deleting the
record, the firing path persists it with `completed = true` (and the
timer table is left untouched). -/
theorem c6_amended_unrecognizedMarksCompleted (store : Store) (tms : Timers)
    (u rid : String) (r : Reminder) (pat : String)
    (hl : lookup2 store u rid = some r)
    (hpat : truthy (some pat) = true)
    (hnr : nextTimeOf pat r.time = none) :
    lookup2 (markReminderAsCompleted store tms u rid (some pat)).1 u rid
      = some { r with completed := true }
    ∧ (markReminderAsCompleted store tms u rid (some pat)).2 = tms := by
  have hres : markReminderAsCompleted store tms u rid (some pat)
      = (setRem store u rid { r with completed := true }, tms) := by
    unfold markReminderAsCompleted
    rw [hl]
    dsimp only
    rw [if_pos hpat]
    dsimp only [Option.getD_some]
    rw [hnr]
  rw [hres]
  exact ⟨lookup2_setRem store u rid _
    (lookupUser_isSome_of_lookup2 store u rid r hl), rfl⟩

/-- Claim C6, witness: the amended theorem applied to the concrete
`"yearly"` reminder. -/
theorem c6_witness :
    lookup2 [("u", [("1", remYearly)])] "u" "1" = some remYearly
    ∧ lookup2 (markReminderAsCompleted [("u", [("1", remYearly)])] [] "u" "1"
        (some "yearly")).1 "u" "1"
      = some { remYearly with completed := true } :=
  ⟨by decide,
    (c6_amended_unrecognizedMarksCompleted [("u", [("1", remYearly)])] [] "u"
      "1" remYearly "yearly" (by decide) (by decide) (by decide)).1⟩

/-- Claim C7, counterexample.  A record whose `dueAt` EQUALS the clock
reading is armed by the recovery pass (the source's guard is the
strict `reminderTime < new Date()`), refuting "dueAt ≤ now results in
no registered timer" and "arms exactly the records with dueAt strictly
after now". -/
theorem c7_counterexample :
    initializeReminderSystem (msOfDateTime sampleTime)
        [("u", [("1", remOld)])]
      = [("u", "1", msOfDateTime sampleTime)]
    ∧ timerFor (initializeReminderSystem (msOfDateTime sampleTime)
        [("u", [("1", remOld)])]) "u" "1" = some (msOfDateTime sampleTime) := by
  constructor
  · decide
  · decide

/-- Claim C7, amended.  Arming is refused exactly for instants
STRICTLY before the clock reading, and on a well-formed store the
recovery pass arms a timer for `(u, rid)` exactly when the record
exists with `completed = false` and `dueAt ≥ now` (the armed instant
being `dueAt`); records strictly in the past, completed records, and
absent records get no timer. -/
theorem c7_amended_recoveryArming (nowMs : Int) (store : Store)
    (u rid : String) (hwf : WFStore store) :
    timerFor (initializeReminderSystem nowMs store) u rid
      = match lookup2 store u rid with
        | some r =>
          if r.completed = false ∧ nowMs ≤ msOfDateTime r.time
          then some (msOfDateTime r.time)
          else none
        | none => none := by
  unfold initializeReminderSystem
  rw [timerFor_initFold nowMs store [] u rid hwf]
  cases lookup2 store u rid with
  | none => rfl
  | some r =>
    dsimp only
    by_cases hk : r.completed = false ∧ nowMs ≤ msOfDateTime r.time
    · rw [if_pos hk, if_pos hk]
    · rw [if_neg hk, if_neg hk]
      rfl

/-- Claim C7, witness: the characterisation applied to a concrete
well-formed one-record store. -/
theorem c7_witness :
    WFStore [("u", [("1", remOld)])]
    ∧ timerFor (initializeReminderSystem 0 [("u", [("1", remOld)])]) "u" "1"
      = match lookup2 [("u", [("1", remOld)])] "u" "1" with
        | some r =>
          if r.completed = false ∧ (0 : Int) ≤ msOfDateTime r.time
          then some (msOfDateTime r.time)
          else none
        | none => none :=
  ⟨by decide, c7_amended_recoveryArming 0 [("u", [("1", remOld)])] "u" "1"
    (by decide)⟩

theorem lookupUser_isSome_of_any (store : Store) (u : String)
    (h : store.any (fun p => p.1 == u) = true) :
    (lookupUser store u).isSome := by
  rcases List.any_eq_true.mp h with ⟨x, hx, hpx⟩
  unfold lookupUser
  cases hf : store.find? (fun p => p.1 == u) with
  | some p => rfl
  | none => exact absurd hpx (List.find?_eq_none.mp hf x hx)

theorem lookupUser_none_of_not_any (store : Store) (u : String)
    (h : store.any (fun p => p.1 == u) = false) :
    lookupUser store u = none := by
  unfold lookupUser
  have hnone : store.find? (fun p => p.1 == u) = none := by
    rw [List.find?_eq_none]
    intro x hx hpx
    have hax : store.any (fun p => p.1 == u) = true :=
      List.any_eq_true.mpr ⟨x, hx, hpx⟩
    rw [h] at hax
    exact Bool.false_ne_true hax
  rw [hnone]
  rfl

theorem lookupUser_append_self (store : Store) (u : String)
    (h : store.any (fun p => p.1 == u) = false) :
    lookupUser (store ++ [(u, [])]) u = some [] := by
  unfold lookupUser
  have hnone : store.find? (fun p => p.1 == u) = none := by
    rw [List.find?_eq_none]
    intro x hx hpx
    have hax : store.any (fun p => p.1 == u) = true :=
      List.any_eq_true.mpr ⟨x, hx, hpx⟩
    rw [h] at hax
    exact Bool.false_ne_true hax
  rw [List.find?_append, hnone]
  simp [List.find?_cons]

/-- Claim C8, counterexample.  Two creations for the same owner at the
same clock millisecond: the second call assigns the SAME id (the
millisecond timestamp), which is already present in the owner's set,
and silently overwrites the first record — afterwards the owner holds
one record, the second one. -/
theorem c8_counterexample :
    (createReminder [] [] 1700000000000 "u" "a" sampleTime none).2
      = "1700000000000"
    ∧ lookup2 (createReminder [] [] 1700000000000 "u" "a" sampleTime
        none).1.1 "u" "1700000000000"
      = some ⟨"a", sampleTime, 1700000000000, false, none⟩
    ∧ (createReminder (createReminder [] [] 1700000000000 "u" "a" sampleTime
        none).1.1 [] 1700000000000 "u" "b" sampleTime none).2
      = "1700000000000"
    ∧ lookup2 (createReminder (createReminder [] [] 1700000000000 "u" "a"
        sampleTime none).1.1 [] 1700000000000 "u" "b" sampleTime none).1.1
        "u" "1700000000000"
      = some ⟨"b", sampleTime, 1700000000000, false, none⟩
    ∧ ownerLen (createReminder (createReminder [] [] 1700000000000 "u" "a"
        sampleTime none).1.1 [] 1700000000000 "u" "b" sampleTime none).1.1 "u"
      = 1 := by
  refine ⟨by decide, by decide, by decide, by decide, by decide⟩

/-- Claim C8, amended.  `createReminder` assigns the clock millisecond
timestamp (as a decimal string) as the id, with no freshness check.
When that id is not already in the owner's set — which holds whenever
two creations for the owner fall in distinct milliseconds — the call
inserts a fresh record and grows the owner's set by exactly one;
creations in the SAME millisecond reuse the id and the later call
silently overwrites the earlier record. -/
theorem c8_amended_timestampId (store : Store) (tms : Timers) (nowMs : Int)
    (u text : String) (time : DateTime) (rec : Option String)
    (hfresh : lookup2 store u (toString nowMs) = none) :
    (createReminder store tms nowMs u text time rec).2 = toString nowMs
    ∧ lookup2 (createReminder store tms nowMs u text time rec).1.1 u
        (toString nowMs) = some ⟨text, time, nowMs, false, rec⟩
    ∧ ownerLen (createReminder store tms nowMs u text time rec).1.1 u
      = ownerLen store u + 1 := by
  unfold createReminder
  dsimp only
  by_cases hany : store.any (fun p => p.1 == u) = true
  · rw [if_pos hany]
    have hsome : (lookupUser store u).isSome := lookupUser_isSome_of_any store u hany
    exact ⟨rfl, lookup2_setRem store u (toString nowMs) _ hsome,
      ownerLen_setRem_fresh store u (toString nowMs) _ hsome hfresh⟩
  · have hany2 : store.any (fun p => p.1 == u) = false := Bool.eq_false_iff.mpr hany
    rw [if_neg hany]
    have hlu : lookupUser (store ++ [(u, [])]) u = some [] :=
      lookupUser_append_self store u hany2
    have hnone0 : lookupUser store u = none :=
      lookupUser_none_of_not_any store u hany2
    have hsome1 : (lookupUser (store ++ [(u, [])]) u).isSome := by
      rw [hlu]
      rfl
    have hfresh1 : lookup2 (store ++ [(u, [])]) u (toString nowMs) = none := by
      unfold lookup2
      rw [hlu]
      rfl
    refine ⟨rfl, lookup2_setRem (store ++ [(u, [])]) u (toString nowMs) _ hsome1, ?_⟩
    rw [ownerLen_setRem_fresh (store ++ [(u, [])]) u (toString nowMs)
      ⟨text, time, nowMs, false, rec⟩ hsome1 hfresh1]
    unfold ownerLen
    rw [hlu, hnone0]
    rfl

/-- Claim C8, witness: the insertion behaviour applied to the empty
store. -/
theorem c8_witness :
    lookup2 [] "u" (toString (1700000000000 : Int)) = none
    ∧ (createReminder [] [] 1700000000000 "u" "a" sampleTime none).2
      = toString (1700000000000 : Int) :=
  ⟨by decide,
    (c8_amended_timestampId [] [] 1700000000000 "u" "a" sampleTime none
      (by decide)).1⟩

/-- Claim C9 (confirmed).  Parsing the command text
`"in 2 hours to call mom"` at clock reading 2024-03-01 10:00:00 yields
the reminder text `"call mom"`, the instant 2024-03-01 12:00:00 (now
plus two hours through the relative-offset grammar), and no
recurrence. -/
theorem c9_parseScenario :
    parseReminderCommand sampleNow "in 2 hours to call mom"
      = some ⟨"call mom", msOfDateTime ⟨2024, 3, 1, 12, 0, 0⟩, none⟩ := by
  decide

/-- Claim C10 (confirmed).  The fallback branch of the time parser
performs no past-time rejection: the directly-formatted timestamp
`"2020-01-01"` parses (at clock reading 2024-03-01 10:00) to that past
instant rather than `null` — unlike the today-at and explicit-date
branches, which never return an instant that is not strictly after
`now`. -/
theorem c10_fallbackNoPastCheck :
    (parseTimeString sampleNow "2020-01-01"
        = some (msOfDateTime ⟨2020, 1, 1, 0, 0, 0⟩)
      ∧ msOfDateTime ⟨2020, 1, 1, 0, 0, 0⟩ < msOfDateTime sampleNow)
    ∧ (∀ (now : DateTime) (cs : List Char) (t : Int),
        tryTodayBranch now cs = some t → msOfDateTime now < t)
    ∧ (∀ (now : DateTime) (cs : List Char) (t : Int),
        tryDateBranch now cs = some t → msOfDateTime now < t) := by
  refine ⟨⟨by decide, by decide⟩, ?_, ?_⟩
  · intro now cs t h
    unfold tryTodayBranch at h
    cases hs : scanFor matchTodayAt cs with
    | none => rw [hs] at h; simp at h
    | some v =>
      rw [hs] at h
      obtain ⟨hh, hmi, hap⟩ := v
      dsimp only at h
      split at h
      · simp at h
      · cases h
        omega
  · intro now cs t h
    unfold tryDateBranch at h
    cases hs : scanFor matchDateAt cs with
    | none => rw [hs] at h; simp at h
    | some v =>
      rw [hs] at h
      obtain ⟨m, d, yr, hh, hmi, hap⟩ := v
      dsimp only at h
      split at h
      · simp at h
      · cases h
        omega

/-- Claim C10, witness: the today-at branch really can return an
instant (so the strictly-after-now guarantees above are not vacuous):
`"today at 11am"` at 10:00 parses to 11:00, strictly after now. -/
theorem c10_witness :
    tryTodayBranch sampleNow ("today at 11am".toList)
      = some (msOfDateTime ⟨2024, 3, 1, 11, 0, 0⟩)
    ∧ msOfDateTime sampleNow < msOfDateTime ⟨2024, 3, 1, 11, 0, 0⟩ :=
  ⟨by decide,
    c10_fallbackNoPastCheck.2.1 sampleNow ("today at 11am".toList)
      (msOfDateTime ⟨2024, 3, 1, 11, 0, 0⟩) (by decide)⟩

end ReminderBot
